import Mathlib

/- Verification of the attachment-harvesting pipeline of
   procore_acc_utilities (attachment_downloader.py and its copy in the
   unnamed source part).  Strings are modelled as lists of characters;
   the filesystem as the list of existing paths (files and directories
   are not distinguished, `os.path.exists` / `os.path.isdir` become list
   membership); the network as a function from a link to either a
   response or a raised transport exception.  Library-driven string
   munging (the Content-Disposition regex capture, mimetypes extension
   guessing, urllib parsing) is carried as attributes of the response;
   everything downstream of those values is translated statement by
   statement from the Python source. -/

abbrev Str := List Char

def strL (s : String) : Str := s.toList

/-- Python `s.startswith(pre)`. -/
def strStarts (pre s : Str) : Bool := decide (s.take pre.length = pre)

/-- Python `s.endswith(suf)`. -/
def strEnds (suf s : Str) : Bool := decide (s.drop (s.length - suf.length) = suf)

def digitChar (d : Nat) : Char := Char.ofNat (48 + d)

/-- Fuel-driven decimal rendering; `natToStr` below supplies enough fuel. -/
def natToStrAux : Nat → Nat → Str
  | 0, _ => []
  | f + 1, n => if n < 10 then [digitChar n] else natToStrAux f (n / 10) ++ [digitChar (n % 10)]

/-- Python `str(n)` for a natural number: decimal digits, no leading zeros. -/
def natToStr (n : Nat) : Str := natToStrAux (n + 1) n

/-- Python `os.path.join(a, b)` (posix separators). -/
def pathJoin (a b : Str) : Str :=
  if b.take 1 = ['/'] then b
  else if a = [] then b
  else if a.getLast? = some '/' then a ++ b
  else a ++ '/' :: b

/-- Create a path if absent (`os.makedirs`, or writing a fresh file). -/
def addPath (fs : List Str) (p : Str) : List Str :=
  if p ∈ fs then fs else fs ++ [p]

/-- Index of the last occurrence of `c` in `s`, if any. -/
def lastIdx (c : Char) : Str → Option Nat
  | [] => none
  | x :: xs =>
    match lastIdx c xs with
    | some j => some (j + 1)
    | none => if x = c then some 0 else none

/-- Python `os.path.splitext` (posix): split at the final dot, provided it
comes after the final separator and the basename does not consist solely of
leading dots up to that point. -/
def splitext (p : Str) : Str × Str :=
  match lastIdx '.' p with
  | none => (p, [])
  | some d =>
    let s : Nat := match lastIdx '/' p with | some i => i + 1 | none => 0
    if s ≤ d ∧ ((p.drop s).take (d - s)).any (fun c => c ≠ '.') then
      (p.take d, p.drop d)
    else (p, [])

/-- Python slice `s[:k]` with a possibly negative bound. -/
def pyTake (s : Str) (k : Int) : Str :=
  if 0 ≤ k then s.take k.toNat else s.take (s.length - (-k).toNat)

/-- `"-_.() %s%s" % (string.ascii_letters, string.digits)`. -/
def valid_chars : Str :=
  strL "-_.() " ++ strL "abcdefghijklmnopqrstuvwxyzABCDEFGHIJKLMNOPQRSTUVWXYZ"
    ++ strL "0123456789"

/-- `sanitize_filename` from attachment_downloader.py: keep only characters
of `valid_chars`, then truncate to `max_length` while preserving the
extension of the filtered name. -/
def sanitize_filename (filename : Str) (max_length : Nat) : Str :=
  let f := filename.filter fun c => decide (c ∈ valid_chars)
  let nm := (splitext f).1
  let ext := (splitext f).2
  if f.length > max_length then pyTake nm ((max_length : Int) - ext.length) ++ ext else f

/- ## Data model: PDF documents, network, failure records -/

/-- One entry of `page.get_links()`: `link.get("uri")` is a string when the
"uri" key exists (possibly the empty string), `none` when it is absent. -/
structure Annot where
  uri : Option Str
deriving DecidableEq

structure PdfPage where
  links : List Annot
deriving DecidableEq

structure PdfDoc where
  pages : List PdfPage
deriving DecidableEq

/-- `extract_hyperlinks_from_pdf`: iterate the pages in order, the link
annotations of each page in order, and append each truthy `uri` value
(`if uri:` in Python skips both a missing and an empty uri). -/
def extract_hyperlinks_from_pdf (d : PdfDoc) : List Str :=
  d.pages.foldl
    (fun acc pg =>
      pg.links.foldl
        (fun acc2 a =>
          match a.uri with
          | some u => if u.isEmpty then acc2 else acc2 ++ [u]
          | none => acc2)
        acc)
    []

/-- Attributes of a 200 response that the filename-resolution code reads.
The Content-Disposition regex capture, the mimetypes extension guess and the
unquoted URL-path basename are library outputs carried here as data. -/
structure Response where
  status : Nat
  headerFilename : Option Str
  guessedExt : Str
  urlFilename : Str
deriving DecidableEq

/-- Result of `requests.get`: a response, or a raised transport exception
with its message text (`str(e)`). -/
inductive GetResult where
  | exn (msg : Str)
  | resp (r : Response)
deriving DecidableEq

/-- One entry of the `failed_downloads` list.  The Python dict is created
with link/status_code/error and gains pdf_file/attachments_folder later in
`process_pdf_folder`; the missing keys are modelled as empty strings. -/
structure FailureRecord where
  link : Str
  status_code : Option Nat
  error : Str
  pdf_file : Str
  attachments_folder : Str
deriving DecidableEq

def mkFail (l : Str) (sc : Option Nat) (e : Str) : FailureRecord := ⟨l, sc, e, [], []⟩

/-- State threaded through `download_files_from_links`: existing paths,
the accumulated failure list, the links a GET was issued for, and the
paths written (in order). -/
structure DlState where
  fs : List Str
  failures : List FailureRecord
  requested : List Str
  written : List Str
deriving DecidableEq

/-- Filename resolution of the 200 branch (lines 100-118): the
Content-Disposition capture when truthy, else the URL basename when it is
nonempty and contains a dot, else `file_<i>` plus the guessed extension. -/
def dlFilename (i : Nat) (r : Response) : Str :=
  let fromHeader : Str := match r.headerFilename with | some f => f | none => []
  if fromHeader.isEmpty then
    if ¬ r.urlFilename.isEmpty ∧ '.' ∈ r.urlFilename then r.urlFilename
    else strL "file_" ++ natToStr i ++ r.guessedExt
  else fromHeader

/-- The candidate path tried by the collision loop: `f"{base}_{counter}{ext}"`. -/
def fileCand (base ext : Str) (k : Nat) : Str := base ++ '_' :: (natToStr k ++ ext)

/-- The `while os.path.exists(file_path)` collision loop, with explicit fuel;
callers pass `fs.length + 1`, which is proven sufficient below. -/
def suffixLoop (fs : List Str) (mk : Nat → Str) : Str → Nat → Nat → Str
  | p, _, 0 => p
  | p, counter, fuel + 1 => if p ∈ fs then suffixLoop fs mk (mk counter) (counter + 1) fuel else p

/-- Line 119: keep alphanumerics and `._- ` (ASCII range of `str.isalnum`). -/
def dlSanitize (s : Str) : Str :=
  s.filter fun c => c.isAlphanum || decide (c ∈ strL "._- ")

/-- Lines 120-125: join the sanitized name onto the folder and run the
collision loop over the existing paths. -/
def dlTarget (folder : Str) (i : Nat) (r : Response) (fs : List Str) : Str :=
  let p0 := pathJoin folder (dlSanitize (dlFilename i r))
  suffixLoop fs (fileCand (splitext p0).1 (splitext p0).2) p0 1 (fs.length + 1)

/-- The sequence of names the collision loop examines, counting from `c`. -/
def tried (mk : Nat → Str) (p : Str) (c : Nat) : Nat → Str
  | 0 => p
  | j + 1 => mk (c + j)

/-- One iteration of the download loop of `download_files_from_links`
(attachment_downloader.py, lines 89-136). -/
def dlStep (folder : Str) (net : Str → GetResult) (i : Nat) (link : Str) (s : DlState) : DlState :=
  let lower := link.map Char.toLower
  if strStarts (strL "mailto:") lower then s
  else if ¬ (strStarts (strL "http://") lower ∨ strStarts (strL "https://") lower) then s
  else
    match net link with
    | .exn msg =>
        { s with requested := s.requested ++ [link],
                 failures := s.failures ++ [mkFail link none msg] }
    | .resp r =>
        if r.status = 200 then
          let p := dlTarget folder i r s.fs
          { s with requested := s.requested ++ [link],
                   fs := addPath s.fs p,
                   written := s.written ++ [p] }
        else
          { s with requested := s.requested ++ [link],
                   failures := s.failures ++
                     [mkFail link (some r.status) (strL "Status " ++ natToStr r.status)] }

def dlLoop (folder : Str) (net : Str → GetResult) : Nat → List Str → DlState → DlState
  | _, [], s => s
  | i, l :: ls, s => dlLoop folder net (i + 1) ls (dlStep folder net i l s)

/-- `download_files_from_links` of attachment_downloader.py: make the folder
if absent, then process each link in order (enumerate from 0). -/
def download_files_from_links (links : List Str) (folder : Str) (net : Str → GetResult)
    (fs0 : List Str) : DlState :=
  dlLoop folder net 0 links ⟨addPath fs0 folder, [], [], []⟩

/-- One iteration of the copy's loop (src/unnamed/part_000, lines 35-87):
identical except that a 401 status is skipped without a failure record. -/
def dlStepCopy (folder : Str) (net : Str → GetResult) (i : Nat) (link : Str) (s : DlState) : DlState :=
  let lower := link.map Char.toLower
  if strStarts (strL "mailto:") lower then s
  else if ¬ (strStarts (strL "http://") lower ∨ strStarts (strL "https://") lower) then s
  else
    match net link with
    | .exn msg =>
        { s with requested := s.requested ++ [link],
                 failures := s.failures ++ [mkFail link none msg] }
    | .resp r =>
        if r.status = 200 then
          let p := dlTarget folder i r s.fs
          { s with requested := s.requested ++ [link],
                   fs := addPath s.fs p,
                   written := s.written ++ [p] }
        else
          if r.status = 401 then { s with requested := s.requested ++ [link] }
          else
            { s with requested := s.requested ++ [link],
                     failures := s.failures ++
                       [mkFail link (some r.status) (strL "Status " ++ natToStr r.status)] }

def dlLoopCopy (folder : Str) (net : Str → GetResult) : Nat → List Str → DlState → DlState
  | _, [], s => s
  | i, l :: ls, s => dlLoopCopy folder net (i + 1) ls (dlStepCopy folder net i l s)

/-- `download_files_from_links` of src/unnamed/part_000. -/
def download_files_from_links_copy (links : List Str) (folder : Str) (net : Str → GetResult)
    (fs0 : List Str) : DlState :=
  dlLoopCopy folder net 0 links ⟨addPath fs0 folder, [], [], []⟩

/- ## process_pdf_folder model -/

/-- One entry of the glob result: its basename, whether the
`os.path.exists` re-check at the top of the loop passes, and the parse
result (`none` models `fitz.open` raising, the only uncaught exception
source inside the per-document try block). -/
structure PdfFile where
  name : Str
  onDisk : Bool
  parsed : Option PdfDoc
deriving DecidableEq

/-- Environment of a run: the network, and whether a given
`os.rename(src, dst)` call raises. -/
structure PEnv where
  net : Str → GetResult
  renameFails : Str → Str → Bool

structure SummaryRow where
  file_number : Nat
  file_name : Str
  attachments_count : Int
deriving DecidableEq

structure RunState where
  fs : List Str
  summary : List SummaryRow
  all_failed : List FailureRecord
  written : List Str
deriving DecidableEq

def pdfTag (k : Nat) : Str := strL "pdf_" ++ natToStr k

/-- `os.rename(src, dst)` effect on one existing path. -/
def renamePath (src dst q : Str) : Str :=
  if q = src then dst
  else if q.take (src.length + 1) = src ++ ['/'] then dst ++ q.drop src.length
  else q

/-- Set the two context fields on a failure record (the for-loops over
`failed` in process_pdf_folder). -/
def tagRec (n folder : Str) (f : FailureRecord) : FailureRecord :=
  { f with pdf_file := n, attachments_folder := folder }

/-- The folder name the rename block targets (lines 190-199): sanitized
basename without extension, positional fallback when empty, numeric
suffixing until unused. -/
def renameTarget (dest : Str) (i : Nat) (name : Str) (fs : List Str) : Str :=
  let base := sanitize_filename (splitext name).1 80
  let safe := if base = [] then pdfTag (i + 1) else base
  let t0 := pathJoin dest safe
  suffixLoop fs (fun k => t0 ++ '_' :: natToStr k) t0 1 (fs.length + 1)

/-- The rename try-block (lines 187-220): returns the filesystem and the
tagged failure records. On an `os.rename` exception the filesystem is left
untouched and the records point at the original subfolder. -/
def renameStep (dest : Str) (env : PEnv) (i : Nat) (name sub : Str) (fs : List Str)
    (failed : List FailureRecord) : List Str × List FailureRecord :=
  if sub ∈ fs then
    let target := renameTarget dest i name fs
    if sub ≠ target then
      if env.renameFails sub target then
        (fs, failed.map (tagRec name sub))
      else
        (fs.map (renamePath sub target), failed.map (tagRec name target))
    else
      (fs, failed.map (tagRec name target))
  else
    (fs, failed.map (tagRec name (pathJoin dest (pdfTag (i + 1)))))

/-- One iteration of the loop over pdf files (lines 171-238). -/
def processDoc (dest : Str) (env : PEnv) (i : Nat) (p : PdfFile) (s : RunState) : RunState :=
  if p.onDisk = false then s
  else
    match p.parsed with
    | none => { s with summary := s.summary ++ [⟨i + 1, p.name, 0⟩] }
    | some d =>
      let links := extract_hyperlinks_from_pdf d
      if links = [] then { s with summary := s.summary ++ [⟨i + 1, p.name, 0⟩] }
      else
        let sub := pathJoin dest (pdfTag (i + 1))
        let R := download_files_from_links links sub env.net s.fs
        let cnt : Int := (links.length : Int) - R.failures.length
        let fsfail := renameStep dest env i p.name sub R.fs R.failures
        { fs := fsfail.1,
          summary := s.summary ++ [⟨i + 1, p.name, cnt⟩],
          all_failed := s.all_failed ++ fsfail.2,
          written := s.written ++ R.written }

def runDocs (dest : Str) (env : PEnv) : Nat → List PdfFile → RunState → RunState
  | _, [], s => s
  | i, p :: ps, s => runDocs dest env (i + 1) ps (processDoc dest env i p s)

/-- Result of a whole run; `summaryCsv` / `failedCsv` record the report
paths written (none when the file is not written). -/
structure RunOutput where
  fs : List Str
  summary : List SummaryRow
  all_failed : List FailureRecord
  written : List Str
  summaryCsv : Option Str
  failedCsv : Option Str
deriving DecidableEq

/-- `process_pdf_folder` of attachment_downloader.py: make the destination
folder, return early when no pdfs were found, else process every document
and write the summary csv always and the failure csv only when failures
accumulated. -/
def process_pdf_folder (dest : Str) (env : PEnv) (pdfs : List PdfFile)
    (fs0 : List Str) : RunOutput :=
  let fs1 := addPath fs0 dest
  if pdfs = [] then ⟨fs1, [], [], [], none, none⟩
  else
    let s := runDocs dest env 0 pdfs ⟨fs1, [], [], []⟩
    let sp := pathJoin dest (strL "file_summary.csv")
    let fs2 := addPath s.fs sp
    if s.all_failed = [] then ⟨fs2, s.summary, s.all_failed, s.written, some sp, none⟩
    else
      let fp := pathJoin dest (strL "failed_downloads.csv")
      ⟨addPath fs2 fp, s.summary, s.all_failed, s.written, some sp, some fp⟩

/- ## Spec-side characterizations used in the claim statements -/

/-- A link the classifier lets through to a GET: not `mailto:` and
`http(s)`-prefixed (case-insensitive). -/
def attemptableB (link : Str) : Bool :=
  let lower := link.map Char.toLower
  !(strStarts (strL "mailto:") lower)
    && (strStarts (strL "http://") lower || strStarts (strL "https://") lower)

/-- The failure record the spec expects a single link to contribute:
none when skipped or on a 200, the exception record on a transport error,
the status record on any other status. -/
def expectedFailure (net : Str → GetResult) (link : Str) : Option FailureRecord :=
  if attemptableB link then
    match net link with
    | .exn msg => some (mkFail link none msg)
    | .resp r =>
        if r.status = 200 then none
        else some (mkFail link (some r.status) (strL "Status " ++ natToStr r.status))
  else none

/-- The uri of an annotation when it is truthy in Python's sense. -/
def truthyUri (a : Annot) : Option Str :=
  match a.uri with
  | some u => if u.isEmpty then none else some u
  | none => none

/-- The count stored in a document's summary row, as the code computes it:
`len(hyperlinks) - len(failed)` (0 when there are no links). -/
def docCnt (env : PEnv) (d : PdfDoc) : Int :=
  let links := extract_hyperlinks_from_pdf d
  if links = [] then 0
  else (links.length : Int) - (links.filterMap (expectedFailure env.net)).length

/-- The summary rows one glob entry contributes. -/
def docRow (env : PEnv) (i : Nat) (p : PdfFile) : List SummaryRow :=
  if p.onDisk then
    match p.parsed with
    | none => [⟨i + 1, p.name, 0⟩]
    | some d => [⟨i + 1, p.name, docCnt env d⟩]
  else []

def summaryRows (env : PEnv) : Nat → List PdfFile → List SummaryRow
  | _, [] => []
  | i, p :: ps => docRow env i p ++ summaryRows env (i + 1) ps

/-- The choice the collision loop promises: a fresh path, the unchanged
name when it was free, and otherwise the first free numbered candidate. -/
def freshChoice (fs : List Str) (p chosen : Str) : Prop :=
  chosen ∉ fs
  ∧ (p ∉ fs → chosen = p)
  ∧ (p ∈ fs → ∃ k, 1 ≤ k ∧ chosen = fileCand (splitext p).1 (splitext p).2 k
      ∧ ∀ j, 1 ≤ j → j < k → fileCand (splitext p).1 (splitext p).2 j ∈ fs)

/- ## Concrete fixtures used in closed instances -/

/-- A network on which every GET raises (empty message). -/
def offlineNet : Str → GetResult := fun _ => GetResult.exn []

/-- A network answering every GET with the given status and a plain
`a.txt` URL basename. -/
def respNet (st : Nat) : Str → GetResult :=
  fun _ => GetResult.resp ⟨st, none, [], strL "a.txt"⟩

/-- Offline network, renames succeed. -/
def quietEnv : PEnv := ⟨offlineNet, fun _ _ => false⟩

/-- Offline network, renames raise. -/
def failRenameEnv : PEnv := ⟨offlineNet, fun _ _ => true⟩

/- ## Lemmas: decimal rendering -/

lemma natToStrAux_irrel : ∀ f g n : Nat, n < f → n < g → natToStrAux f n = natToStrAux g n := by
  intro f
  induction f with
  | zero => intro g n h; omega
  | succ f ih =>
    intro g n hf hg
    cases g with
    | zero => omega
    | succ g =>
      simp only [natToStrAux]
      by_cases h10 : n < 10
      · simp [h10]
      · simp only [h10, if_false]
        rw [ih g (n / 10) (by omega) (by omega)]

lemma natToStrAux_succ (f n : Nat) :
    natToStrAux (f + 1) n =
      if n < 10 then [digitChar n] else natToStrAux f (n / 10) ++ [digitChar (n % 10)] := rfl

lemma natToStr_eq (n : Nat) :
    natToStr n = if n < 10 then [digitChar n] else natToStr (n / 10) ++ [digitChar (n % 10)] := by
  show natToStrAux (n + 1) n = _
  rw [natToStrAux_succ]
  by_cases h10 : n < 10
  · rw [if_pos h10, if_pos h10]
  · rw [if_neg h10, if_neg h10]
    congr 1
    exact natToStrAux_irrel n (n / 10 + 1) (n / 10)
      (lt_of_lt_of_le (Nat.div_lt_self (by omega) (by omega)) (by omega)) (by omega)

lemma natToStr_ne_nil (n : Nat) : natToStr n ≠ [] := by
  rw [natToStr_eq]
  split <;> simp

lemma digitChar_inj : ∀ d, d < 10 → ∀ e, e < 10 → digitChar d = digitChar e → d = e := by
  decide

lemma append_singleton_inj {α : Type} {a b : List α} {x y : α}
    (h : a ++ [x] = b ++ [y]) : a = b ∧ x = y := by
  have h1 := congrArg List.reverse h
  simp only [List.reverse_append, List.reverse_cons, List.reverse_nil, List.nil_append,
    List.singleton_append, List.cons.injEq] at h1
  exact ⟨List.reverse_injective h1.2, h1.1⟩

lemma natToStr_inj : ∀ m n : Nat, natToStr m = natToStr n → m = n := by
  intro m
  induction m using Nat.strong_induction_on with
  | _ m ih =>
    intro n h
    rw [natToStr_eq m, natToStr_eq n] at h
    by_cases hm : m < 10 <;> by_cases hn : n < 10
    · rw [if_pos hm, if_pos hn] at h
      have hd : digitChar m = digitChar n := by simpa using h
      exact digitChar_inj m hm n hn hd
    · rw [if_pos hm, if_neg hn] at h
      have hlen := congrArg List.length h
      rw [List.length_append] at hlen
      simp only [List.length_singleton] at hlen
      have hpos : 0 < (natToStr (n / 10)).length :=
        List.length_pos.mpr (natToStr_ne_nil (n / 10))
      omega
    · rw [if_neg hm, if_pos hn] at h
      have hlen := congrArg List.length h
      rw [List.length_append] at hlen
      simp only [List.length_singleton] at hlen
      have hpos : 0 < (natToStr (m / 10)).length :=
        List.length_pos.mpr (natToStr_ne_nil (m / 10))
      omega
    · rw [if_neg hm, if_neg hn] at h
      obtain ⟨ht, hd⟩ := append_singleton_inj h
      have hmod : m % 10 = n % 10 :=
        digitChar_inj (m % 10) (by omega) (n % 10) (by omega) hd
      have hquot : m / 10 = n / 10 :=
        ih (m / 10) (Nat.div_lt_self (by omega) (by omega)) (n / 10) ht
      omega

/- ## Lemmas: splitext and the collision loop -/

lemma splitext_append (p : Str) : (splitext p).1 ++ (splitext p).2 = p := by
  unfold splitext
  cases h : lastIdx '.' p with
  | none => simp
  | some d =>
    simp only []
    split
    · exact List.take_append_drop d p
    · simp

lemma strEnds_append (x suf : Str) : strEnds suf (x ++ suf) = true := by
  unfold strEnds
  rw [decide_eq_true_eq, List.length_append, Nat.add_sub_cancel, List.drop_left]

lemma tried_shift (mk : Nat → Str) (c : Nat) :
    ∀ j, tried mk (mk c) (c + 1) j = mk (c + j)
  | 0 => by simp [tried]
  | j + 1 => by
    simp only [tried]
    exact congrArg mk (by omega)

lemma suffixLoop_of_found (fs : List Str) (mk : Nat → Str) :
    ∀ fuel c p, (∃ j, j ≤ fuel ∧ tried mk p c j ∉ fs) →
      suffixLoop fs mk p c fuel ∉ fs
      ∧ (p ∉ fs → suffixLoop fs mk p c fuel = p)
      ∧ (p ∈ fs → ∃ k, c ≤ k ∧ suffixLoop fs mk p c fuel = mk k
          ∧ ∀ j, c ≤ j → j < k → mk j ∈ fs) := by
  intro fuel
  induction fuel with
  | zero =>
    intro c p h
    obtain ⟨j, hj, hout⟩ := h
    have hj0 : j = 0 := by omega
    subst hj0
    simp only [tried] at hout
    exact ⟨hout, fun _ => rfl, fun hin => absurd hin hout⟩
  | succ fuel ih =>
    intro c p h
    by_cases hp : p ∈ fs
    · have hred : suffixLoop fs mk p c (fuel + 1) = suffixLoop fs mk (mk c) (c + 1) fuel := by
        simp only [suffixLoop, if_pos hp]
      rw [hred]
      have hnext : ∃ j, j ≤ fuel ∧ tried mk (mk c) (c + 1) j ∉ fs := by
        obtain ⟨j, hj, hout⟩ := h
        cases j with
        | zero => simp only [tried] at hout; exact absurd hp hout
        | succ j =>
          refine ⟨j, by omega, ?_⟩
          rw [tried_shift mk c j]
          simpa [tried] using hout
      obtain ⟨hfresh, heq, hsuf⟩ := ih (c + 1) (mk c) hnext
      refine ⟨hfresh, fun hnp => absurd hp hnp, fun _ => ?_⟩
      by_cases hmkc : mk c ∈ fs
      · obtain ⟨k, hck, hres, hall⟩ := hsuf hmkc
        refine ⟨k, by omega, hres, fun j hcj hjk => ?_⟩
        rcases Nat.eq_or_lt_of_le hcj with hcj' | hcj'
        · rw [← hcj']; exact hmkc
        · exact hall j (by omega) hjk
      · exact ⟨c, le_refl c, heq hmkc, fun j hcj hjk => by omega⟩
    · have hred : suffixLoop fs mk p c (fuel + 1) = p := by
        simp only [suffixLoop, if_neg hp]
      rw [hred]
      exact ⟨hp, fun _ => rfl, fun hin => absurd hin hp⟩

lemma exists_fresh_tried (fs : List Str) (mk : Nat → Str) (p : Str)
    (hinj : ∀ j k, mk j = mk k → j = k) (hne : ∀ k, mk k ≠ p) :
    ∃ j, j ≤ fs.length + 1 ∧ tried mk p 1 j ∉ fs := by
  by_contra hc
  push_neg at hc
  have tinj : Function.Injective (tried mk p 1) := by
    intro a b hab
    match a, b with
    | 0, 0 => rfl
    | 0, b + 1 => exact absurd hab.symm (hne (1 + b))
    | a + 1, 0 => exact absurd hab (hne (1 + a))
    | a + 1, b + 1 =>
      simp only [tried] at hab
      have := hinj _ _ hab
      omega
  have hsub : (Finset.range (fs.length + 2)).image (tried mk p 1) ⊆ fs.toFinset := by
    intro x hx
    rw [Finset.mem_image] at hx
    obtain ⟨j, hj, rfl⟩ := hx
    rw [Finset.mem_range] at hj
    exact List.mem_toFinset.mpr (hc j (by omega))
  have hcard := Finset.card_le_card hsub
  rw [Finset.card_image_of_injective _ tinj, Finset.card_range] at hcard
  have := List.toFinset_card_le fs
  omega

lemma suffixLoop_spec (fs : List Str) (mk : Nat → Str) (p : Str)
    (hinj : ∀ j k, mk j = mk k → j = k) (hne : ∀ k, mk k ≠ p) :
    suffixLoop fs mk p 1 (fs.length + 1) ∉ fs
    ∧ (p ∉ fs → suffixLoop fs mk p 1 (fs.length + 1) = p)
    ∧ (p ∈ fs → ∃ k, 1 ≤ k ∧ suffixLoop fs mk p 1 (fs.length + 1) = mk k
        ∧ ∀ j, 1 ≤ j → j < k → mk j ∈ fs) :=
  suffixLoop_of_found fs mk (fs.length + 1) 1 p (exists_fresh_tried fs mk p hinj hne)

lemma fileCand_inj (base ext : Str) : ∀ j k, fileCand base ext j = fileCand base ext k → j = k := by
  intro j k h
  unfold fileCand at h
  have h1 := List.append_cancel_left h
  have h2 : natToStr j ++ ext = natToStr k ++ ext := by
    injection h1
  exact natToStr_inj j k (List.append_cancel_right h2)

lemma fileCand_ne (p : Str) :
    ∀ k, fileCand (splitext p).1 (splitext p).2 k ≠ p := by
  intro k h
  have hlen := congrArg List.length h
  simp only [fileCand, List.length_append, List.length_cons] at hlen
  have hre := congrArg List.length (splitext_append p)
  rw [List.length_append] at hre
  have hpos : 0 < (natToStr k).length := List.length_pos.mpr (natToStr_ne_nil k)
  omega

/-- The collision loop, as called by the downloader, picks the first free
name: unchanged when free, else the first free `_k`-suffixed candidate. -/
lemma dl_freshChoice (fs : List Str) (p : Str) :
    freshChoice fs p (suffixLoop fs (fileCand (splitext p).1 (splitext p).2) p 1 (fs.length + 1)) :=
  suffixLoop_spec fs _ p (fileCand_inj _ _) (fileCand_ne p)

/- ## Lemmas: the download loop -/

lemma addPath_mono (fs : List Str) (p q : Str) (h : q ∈ fs) : q ∈ addPath fs p := by
  unfold addPath
  split
  · exact h
  · exact List.mem_append_left _ h

lemma addPath_of_not_mem (fs : List Str) (p : Str) (h : p ∉ fs) : addPath fs p = fs ++ [p] := by
  unfold addPath
  rw [if_neg h]

lemma dlStep_skip (folder : Str) (net : Str → GetResult) (i : Nat) (link : Str) (s : DlState)
    (ha : attemptableB link = false) : dlStep folder net i link s = s := by
  simp only [dlStep]
  by_cases hm : strStarts (strL "mailto:") (link.map Char.toLower) = true
  · rw [if_pos (by simp [hm])]
  · have hm' : strStarts (strL "mailto:") (link.map Char.toLower) = false :=
      Bool.eq_false_iff.mpr hm
    have hor : (strStarts (strL "http://") (link.map Char.toLower)
        || strStarts (strL "https://") (link.map Char.toLower)) = false := by
      simpa [attemptableB, hm'] using ha
    rw [Bool.or_eq_false_iff] at hor
    rw [if_neg (by simp [hm']), if_pos (by simp [hor.1, hor.2])]

lemma dlStepCopy_skip (folder : Str) (net : Str → GetResult) (i : Nat) (link : Str) (s : DlState)
    (ha : attemptableB link = false) : dlStepCopy folder net i link s = s := by
  simp only [dlStepCopy]
  by_cases hm : strStarts (strL "mailto:") (link.map Char.toLower) = true
  · rw [if_pos (by simp [hm])]
  · have hm' : strStarts (strL "mailto:") (link.map Char.toLower) = false :=
      Bool.eq_false_iff.mpr hm
    have hor : (strStarts (strL "http://") (link.map Char.toLower)
        || strStarts (strL "https://") (link.map Char.toLower)) = false := by
      simpa [attemptableB, hm'] using ha
    rw [Bool.or_eq_false_iff] at hor
    rw [if_neg (by simp [hm']), if_pos (by simp [hor.1, hor.2])]

lemma dlStep_eq_of_attempt (folder : Str) (net : Str → GetResult) (i : Nat) (link : Str)
    (s : DlState) (ha : attemptableB link = true) :
    dlStep folder net i link s =
      match net link with
      | .exn msg =>
          { s with requested := s.requested ++ [link],
                   failures := s.failures ++ [mkFail link none msg] }
      | .resp r =>
          if r.status = 200 then
            { s with requested := s.requested ++ [link],
                     fs := addPath s.fs (dlTarget folder i r s.fs),
                     written := s.written ++ [dlTarget folder i r s.fs] }
          else
            { s with requested := s.requested ++ [link],
                     failures := s.failures ++
                       [mkFail link (some r.status) (strL "Status " ++ natToStr r.status)] } := by
  unfold attemptableB at ha
  rw [Bool.and_eq_true, Bool.not_eq_true'] at ha
  obtain ⟨hm, hor⟩ := ha
  rw [Bool.or_eq_true] at hor
  simp only [dlStep]
  rw [if_neg (by simp [hm]), if_neg (by rcases hor with h | h <;> simp [h])]

lemma dlStepCopy_eq_of_attempt (folder : Str) (net : Str → GetResult) (i : Nat) (link : Str)
    (s : DlState) (ha : attemptableB link = true) :
    dlStepCopy folder net i link s =
      match net link with
      | .exn msg =>
          { s with requested := s.requested ++ [link],
                   failures := s.failures ++ [mkFail link none msg] }
      | .resp r =>
          if r.status = 200 then
            { s with requested := s.requested ++ [link],
                     fs := addPath s.fs (dlTarget folder i r s.fs),
                     written := s.written ++ [dlTarget folder i r s.fs] }
          else
            if r.status = 401 then { s with requested := s.requested ++ [link] }
            else
              { s with requested := s.requested ++ [link],
                       failures := s.failures ++
                         [mkFail link (some r.status) (strL "Status " ++ natToStr r.status)] } := by
  unfold attemptableB at ha
  rw [Bool.and_eq_true, Bool.not_eq_true'] at ha
  obtain ⟨hm, hor⟩ := ha
  rw [Bool.or_eq_true] at hor
  simp only [dlStepCopy]
  rw [if_neg (by simp [hm]), if_neg (by rcases hor with h | h <;> simp [h])]

lemma dlStep_failures (folder : Str) (net : Str → GetResult) (i : Nat) (link : Str) (s : DlState) :
    (dlStep folder net i link s).failures = s.failures ++ (expectedFailure net link).toList := by
  cases ha : attemptableB link with
  | false => rw [dlStep_skip folder net i link s ha]; simp [expectedFailure, ha]
  | true =>
    rw [dlStep_eq_of_attempt folder net i link s ha]
    unfold expectedFailure
    rw [if_pos (by simp [ha])]
    cases hn : net link with
    | exn msg => simp
    | resp r =>
      by_cases hs : r.status = 200
      · simp [hs]
      · simp [hs]

lemma dlStep_requested (folder : Str) (net : Str → GetResult) (i : Nat) (link : Str) (s : DlState) :
    (dlStep folder net i link s).requested
      = s.requested ++ (if attemptableB link = true then [link] else []) := by
  cases ha : attemptableB link with
  | false => rw [dlStep_skip folder net i link s ha]; simp
  | true =>
    rw [dlStep_eq_of_attempt folder net i link s ha]
    cases hn : net link with
    | exn msg => simp
    | resp r =>
      by_cases hs : r.status = 200
      · simp [hs]
      · simp [hs]

lemma dlLoop_failures (folder : Str) (net : Str → GetResult) :
    ∀ (ls : List Str) (i : Nat) (s : DlState),
      (dlLoop folder net i ls s).failures = s.failures ++ ls.filterMap (expectedFailure net) := by
  intro ls
  induction ls with
  | nil => intro i s; simp [dlLoop]
  | cons l ls ih =>
    intro i s
    simp only [dlLoop]
    rw [ih, dlStep_failures, List.filterMap_cons]
    cases expectedFailure net l with
    | none => simp
    | some fr => simp

lemma dlLoop_requested (folder : Str) (net : Str → GetResult) :
    ∀ (ls : List Str) (i : Nat) (s : DlState),
      (dlLoop folder net i ls s).requested = s.requested ++ ls.filter attemptableB := by
  intro ls
  induction ls with
  | nil => intro i s; simp [dlLoop]
  | cons l ls ih =>
    intro i s
    simp only [dlLoop]
    rw [ih, dlStep_requested, List.filter_cons]
    cases ha : attemptableB l with
    | false => simp [ha]
    | true => simp [ha]

lemma download_failures (links : List Str) (folder : Str) (net : Str → GetResult)
    (fs0 : List Str) :
    (download_files_from_links links folder net fs0).failures
      = links.filterMap (expectedFailure net) := by
  unfold download_files_from_links
  rw [dlLoop_failures]
  rfl

lemma download_requested (links : List Str) (folder : Str) (net : Str → GetResult)
    (fs0 : List Str) :
    (download_files_from_links links folder net fs0).requested
      = links.filter attemptableB := by
  unfold download_files_from_links
  rw [dlLoop_requested]
  rfl

/- ## Lemmas: relation between the two downloader variants -/

lemma dlRel_step (folder : Str) (net : Str → GetResult) (i : Nat) (link : Str)
    (sA sB : DlState)
    (h1 : sB.fs = sA.fs) (h2 : sB.requested = sA.requested) (h3 : sB.written = sA.written)
    (h4 : sB.failures = sA.failures.filter fun fr => !decide (fr.status_code = some 401)) :
    (dlStepCopy folder net i link sB).fs = (dlStep folder net i link sA).fs
    ∧ (dlStepCopy folder net i link sB).requested = (dlStep folder net i link sA).requested
    ∧ (dlStepCopy folder net i link sB).written = (dlStep folder net i link sA).written
    ∧ (dlStepCopy folder net i link sB).failures
        = (dlStep folder net i link sA).failures.filter
            fun fr => !decide (fr.status_code = some 401) := by
  cases ha : attemptableB link with
  | false =>
    rw [dlStep_skip folder net i link sA ha, dlStepCopy_skip folder net i link sB ha]
    exact ⟨h1, h2, h3, h4⟩
  | true =>
    rw [dlStep_eq_of_attempt folder net i link sA ha,
      dlStepCopy_eq_of_attempt folder net i link sB ha]
    cases hn : net link with
    | exn msg =>
      refine ⟨h1, by simp [h2], h3, ?_⟩
      simp only [h4, List.filter_append]
      simp [mkFail]
    | resp r =>
      dsimp only
      by_cases hs : r.status = 200
      · rw [if_pos hs, if_pos hs]
        exact ⟨by simp [h1], by simp [h2], by simp [h1, h3], by simp [h4]⟩
      · rw [if_neg hs, if_neg hs]
        by_cases h401 : r.status = 401
        · rw [if_pos h401]
          refine ⟨h1, by simp [h2], h3, ?_⟩
          simp only [h4, List.filter_append, h401]
          simp [mkFail]
        · rw [if_neg h401]
          refine ⟨h1, by simp [h2], h3, ?_⟩
          simp only [h4, List.filter_append]
          simp [mkFail, h401]

lemma dlRel_loop (folder : Str) (net : Str → GetResult) :
    ∀ (ls : List Str) (i : Nat) (sA sB : DlState),
      sB.fs = sA.fs → sB.requested = sA.requested → sB.written = sA.written →
      sB.failures = sA.failures.filter (fun fr => !decide (fr.status_code = some 401)) →
      (dlLoopCopy folder net i ls sB).fs = (dlLoop folder net i ls sA).fs
      ∧ (dlLoopCopy folder net i ls sB).requested = (dlLoop folder net i ls sA).requested
      ∧ (dlLoopCopy folder net i ls sB).written = (dlLoop folder net i ls sA).written
      ∧ (dlLoopCopy folder net i ls sB).failures
          = (dlLoop folder net i ls sA).failures.filter
              fun fr => !decide (fr.status_code = some 401) := by
  intro ls
  induction ls with
  | nil => intro i sA sB h1 h2 h3 h4; exact ⟨h1, h2, h3, h4⟩
  | cons l ls ih =>
    intro i sA sB h1 h2 h3 h4
    simp only [dlLoop, dlLoopCopy]
    obtain ⟨g1, g2, g3, g4⟩ := dlRel_step folder net i l sA sB h1 h2 h3 h4
    exact ih (i + 1) (dlStep folder net i l sA) (dlStepCopy folder net i l sB) g1 g2 g3 g4

lemma download_copy_rel (links : List Str) (folder : Str) (net : Str → GetResult)
    (fs0 : List Str) :
    (download_files_from_links_copy links folder net fs0).fs
        = (download_files_from_links links folder net fs0).fs
    ∧ (download_files_from_links_copy links folder net fs0).requested
        = (download_files_from_links links folder net fs0).requested
    ∧ (download_files_from_links_copy links folder net fs0).written
        = (download_files_from_links links folder net fs0).written
    ∧ (download_files_from_links_copy links folder net fs0).failures
        = (download_files_from_links links folder net fs0).failures.filter
            fun fr => !decide (fr.status_code = some 401) := by
  unfold download_files_from_links download_files_from_links_copy
  exact dlRel_loop folder net links 0 _ _ rfl rfl rfl rfl

/- ## Lemmas: link extraction -/

lemma extract_inner (ans : List Annot) :
    ∀ acc : List Str,
      ans.foldl
        (fun acc2 a =>
          match a.uri with
          | some u => if u.isEmpty then acc2 else acc2 ++ [u]
          | none => acc2)
        acc
      = acc ++ ans.filterMap truthyUri := by
  induction ans with
  | nil => intro acc; simp
  | cons a ans ih =>
    intro acc
    simp only [List.foldl_cons, List.filterMap_cons]
    cases ha : a.uri with
    | none => rw [ih]; simp [truthyUri, ha]
    | some u =>
      by_cases hu : u.isEmpty
      · simp only [ha, hu, if_true]
        rw [ih]
        simp [truthyUri, ha, hu]
      · simp only [ha, hu, if_false]
        rw [ih]
        simp [truthyUri, ha, hu]

lemma extract_outer (pages : List PdfPage) :
    ∀ acc : List Str,
      pages.foldl
        (fun acc pg =>
          pg.links.foldl
            (fun acc2 a =>
              match a.uri with
              | some u => if u.isEmpty then acc2 else acc2 ++ [u]
              | none => acc2)
            acc)
        acc
      = acc ++ ((pages.map PdfPage.links).flatten).filterMap truthyUri := by
  induction pages with
  | nil => intro acc; simp
  | cons pg pages ih =>
    intro acc
    simp only [List.foldl_cons, List.map_cons, List.flatten_cons]
    rw [extract_inner, ih, List.filterMap_append, List.append_assoc]

lemma extract_eq (d : PdfDoc) :
    extract_hyperlinks_from_pdf d
      = ((d.pages.map PdfPage.links).flatten).filterMap truthyUri := by
  unfold extract_hyperlinks_from_pdf
  rw [extract_outer]
  simp

/- ## Lemmas: the per-document loop -/

lemma renameStep_snd (dest : Str) (env : PEnv) (i : Nat) (name sub : Str) (fs : List Str)
    (failed : List FailureRecord) :
    ∃ w, (renameStep dest env i name sub fs failed).2 = failed.map (tagRec name w) := by
  simp only [renameStep]
  split
  · split
    · split
      · exact ⟨sub, rfl⟩
      · exact ⟨renameTarget dest i name fs, rfl⟩
    · exact ⟨renameTarget dest i name fs, rfl⟩
  · exact ⟨pathJoin dest (pdfTag (i + 1)), rfl⟩

lemma renameStep_names (dest : Str) (env : PEnv) (i : Nat) (name sub : Str) (fs : List Str)
    (failed : List FailureRecord) :
    ∀ g ∈ (renameStep dest env i name sub fs failed).2, g.pdf_file = name := by
  intro g hg
  obtain ⟨w, hw⟩ := renameStep_snd dest env i name sub fs failed
  rw [hw] at hg
  obtain ⟨f, _, rfl⟩ := List.mem_map.mp hg
  rfl

lemma processDoc_summary (dest : Str) (env : PEnv) (i : Nat) (p : PdfFile) (s : RunState) :
    (processDoc dest env i p s).summary = s.summary ++ docRow env i p := by
  unfold processDoc docRow
  cases hd : p.onDisk with
  | false => simp
  | true =>
    simp only [Bool.true_eq_false, if_false, if_true]
    cases hp : p.parsed with
    | none => simp
    | some d =>
      dsimp only
      by_cases hl : extract_hyperlinks_from_pdf d = []
      · rw [if_pos hl]
        simp [docCnt, hl]
      · rw [if_neg hl]
        simp only [docCnt, hl, if_false]
        rw [download_failures]

lemma processDoc_failed (dest : Str) (env : PEnv) (i : Nat) (p : PdfFile) (s : RunState) :
    ∃ F, (processDoc dest env i p s).all_failed = s.all_failed ++ F
      ∧ ∀ g ∈ F, g.pdf_file = p.name
          ∧ ∃ d, p.parsed = some d ∧ extract_hyperlinks_from_pdf d ≠ [] := by
  unfold processDoc
  cases hd : p.onDisk with
  | false => exact ⟨[], by simp, by simp⟩
  | true =>
    simp only [Bool.true_eq_false, if_false]
    cases hp : p.parsed with
    | none => exact ⟨[], by simp, by simp⟩
    | some d =>
      dsimp only
      by_cases hl : extract_hyperlinks_from_pdf d = []
      · rw [if_pos hl]
        exact ⟨[], by simp, by simp⟩
      · rw [if_neg hl]
        refine ⟨_, rfl, fun g hg => ⟨renameStep_names _ _ _ _ _ _ _ g hg, d, rfl, hl⟩⟩

lemma processDoc_keeps_failed (dest : Str) (env : PEnv) (i : Nat) (p : PdfFile) (s : RunState)
    (g : FailureRecord) (hg : g ∈ s.all_failed) : g ∈ (processDoc dest env i p s).all_failed := by
  obtain ⟨F, hF, _⟩ := processDoc_failed dest env i p s
  rw [hF]
  exact List.mem_append_left _ hg

lemma runDocs_summary (dest : Str) (env : PEnv) :
    ∀ (ps : List PdfFile) (i : Nat) (s : RunState),
      (runDocs dest env i ps s).summary = s.summary ++ summaryRows env i ps := by
  intro ps
  induction ps with
  | nil => intro i s; simp [runDocs, summaryRows]
  | cons p ps ih =>
    intro i s
    simp only [runDocs, summaryRows]
    rw [ih, processDoc_summary, List.append_assoc]

lemma runDocs_failed (dest : Str) (env : PEnv) :
    ∀ (ps : List PdfFile) (i : Nat) (s : RunState) (g : FailureRecord),
      g ∈ (runDocs dest env i ps s).all_failed →
      g ∈ s.all_failed
      ∨ ∃ p, p ∈ ps ∧ g.pdf_file = p.name
          ∧ ∃ d, p.parsed = some d ∧ extract_hyperlinks_from_pdf d ≠ [] := by
  intro ps
  induction ps with
  | nil => intro i s g hg; exact Or.inl hg
  | cons p ps ih =>
    intro i s g hg
    simp only [runDocs] at hg
    rcases ih (i + 1) (processDoc dest env i p s) g hg with h | ⟨q, hq, hname, hd⟩
    · obtain ⟨F, hF, hall⟩ := processDoc_failed dest env i p s
      rw [hF] at h
      rcases List.mem_append.mp h with h' | h'
      · exact Or.inl h'
      · obtain ⟨hname, d, hpd, hne⟩ := hall g h'
        exact Or.inr ⟨p, List.mem_cons_self p ps, hname, d, hpd, hne⟩
    · exact Or.inr ⟨q, List.mem_cons_of_mem p hq, hname, hd⟩

lemma summaryRows_append (env : PEnv) :
    ∀ (xs ys : List PdfFile) (i : Nat),
      summaryRows env i (xs ++ ys) = summaryRows env i xs ++ summaryRows env (i + xs.length) ys := by
  intro xs
  induction xs with
  | nil => intro ys i; simp [summaryRows]
  | cons x xs ih =>
    intro ys i
    rw [List.cons_append]
    simp only [summaryRows]
    rw [ih, List.append_assoc, List.length_cons]
    have h : i + 1 + xs.length = i + (xs.length + 1) := by omega
    rw [h]

lemma summaryRows_mem (env : PEnv) :
    ∀ (ps : List PdfFile) (i : Nat) (q : PdfFile), q ∈ ps → q.onDisk = true →
      ∃ row, row ∈ summaryRows env i ps ∧ row.file_name = q.name := by
  intro ps
  induction ps with
  | nil => intro i q hq; exact absurd hq (List.not_mem_nil q)
  | cons p ps ih =>
    intro i q hq hdisk
    rcases List.mem_cons.mp hq with rfl | hq'
    · cases hp : q.parsed with
      | none =>
        refine ⟨⟨i + 1, q.name, 0⟩, ?_, rfl⟩
        simp [summaryRows, docRow, hdisk, hp]
      | some d =>
        refine ⟨⟨i + 1, q.name, docCnt env d⟩, ?_, rfl⟩
        simp [summaryRows, docRow, hdisk, hp]
    · obtain ⟨row, hrow, hname⟩ := ih (i + 1) q hq' hdisk
      exact ⟨row, by simp [summaryRows, List.mem_append, hrow], hname⟩

/- ## Claim theorems -/

/-- Claim C5: `download_files_from_links` produces a FailureRecord exactly
for the attempted-and-not-successful links: its GET requests are precisely
the non-mailto http(s) links, each issued once in order, and its failure
list is precisely, in order, one record per attempted link whose response
is a non-200 status (record carries the status) or a transport exception
(record carries the message and no status); skipped links contribute
neither a request nor a record, and processing always reaches every link. -/
theorem failure_records_iff_attempted_and_not_success
    (links : List Str) (folder : Str) (net : Str → GetResult) (fs0 : List Str) :
    (download_files_from_links links folder net fs0).requested = links.filter attemptableB
    ∧ (download_files_from_links links folder net fs0).failures
        = links.filterMap (expectedFailure net) :=
  ⟨download_requested links folder net fs0, download_failures links folder net fs0⟩

/-- Claim C1 (code evaluation): a document whose single link is
`mailto:x@y.com` is skipped entirely — no file is downloaded and no failure
is recorded — yet the summary row written for it carries
attachments_count 1, because the code computes
`len(hyperlinks) - len(failed)`, counting the skipped link as a success. -/
theorem summary_counts_skipped_link_as_success :
    (process_pdf_folder (strL "dest") quietEnv
        [⟨strL "A.pdf", true, some ⟨[⟨[⟨some (strL "mailto:x@y.com")⟩]⟩]⟩⟩] []).summary
      = [⟨1, strL "A.pdf", 1⟩]
    ∧ (process_pdf_folder (strL "dest") quietEnv
        [⟨strL "A.pdf", true, some ⟨[⟨[⟨some (strL "mailto:x@y.com")⟩]⟩]⟩⟩] []).written = []
    ∧ (process_pdf_folder (strL "dest") quietEnv
        [⟨strL "A.pdf", true, some ⟨[⟨[⟨some (strL "mailto:x@y.com")⟩]⟩]⟩⟩] []).all_failed
      = [] := by
  decide

/-- Claim C4, counterexample: a document with one link annotation whose
uri is present but empty has one annotation with a URI target, yet the
extractor returns no URI (Python's `if uri:` drops the empty string), so
the extractor does not return "exactly those N URIs". -/
theorem extractor_drops_empty_uri_target :
    extract_hyperlinks_from_pdf ⟨[⟨[⟨some []⟩]⟩]⟩ = []
    ∧ (((PdfDoc.mk [⟨[⟨some []⟩]⟩]).pages.map PdfPage.links).flatten.filter
        (fun a => a.uri.isSome)).length = 1 := by
  decide

/-- Claim C4, amended: the extractor returns exactly the nonempty URI
targets of the document's link annotations, in page order and then
in-page annotation order; annotations without a URI target, or with an
empty one, are excluded. -/
theorem extractor_returns_truthy_uris_in_order (d : PdfDoc) :
    extract_hyperlinks_from_pdf d
      = ((d.pages.map PdfPage.links).flatten).filterMap truthyUri :=
  extract_eq d

/-- Claim C7, counterexample: when the glob finds no PDF files the run
returns before writing any report, so `file_summary.csv` is not written
("always written" fails on the empty-folder run). -/
theorem no_summary_csv_when_no_pdfs :
    (process_pdf_folder (strL "dest") quietEnv [] []).summaryCsv = none
    ∧ (process_pdf_folder (strL "dest") quietEnv [] []).failedCsv = none := by
  decide

/-- Claim C7, amended: provided at least one PDF was found, the run always
writes `file_summary.csv` into the destination root, and writes
`failed_downloads.csv` (also into the destination root) if and only if at
least one FailureRecord was accumulated; both report names are plain
filenames joined directly onto the destination root, so neither lands in a
per-document subfolder. -/
theorem report_files_written_at_destination_root
    (dest : Str) (env : PEnv) (pdfs : List PdfFile) (fs0 : List Str) (h : pdfs ≠ []) :
    (process_pdf_folder dest env pdfs fs0).summaryCsv
        = some (pathJoin dest (strL "file_summary.csv"))
    ∧ ((process_pdf_folder dest env pdfs fs0).failedCsv
        = some (pathJoin dest (strL "failed_downloads.csv"))
        ↔ (process_pdf_folder dest env pdfs fs0).all_failed ≠ [])
    ∧ '/' ∉ strL "file_summary.csv" ∧ '/' ∉ strL "failed_downloads.csv" := by
  unfold process_pdf_folder
  rw [if_neg h]
  dsimp only
  split
  · next hf => exact ⟨rfl, by simp [hf], by decide, by decide⟩
  · next hf => exact ⟨rfl, by simp [hf], by decide, by decide⟩

theorem report_files_written_at_destination_root_witness :
    ([(⟨strL "A.pdf", false, none⟩ : PdfFile)] ≠ [])
    ∧ ((process_pdf_folder (strL "d") quietEnv [⟨strL "A.pdf", false, none⟩] []).summaryCsv
          = some (pathJoin (strL "d") (strL "file_summary.csv"))
      ∧ ((process_pdf_folder (strL "d") quietEnv [⟨strL "A.pdf", false, none⟩] []).failedCsv
          = some (pathJoin (strL "d") (strL "failed_downloads.csv"))
          ↔ (process_pdf_folder (strL "d") quietEnv [⟨strL "A.pdf", false, none⟩] []).all_failed ≠ [])
      ∧ '/' ∉ strL "file_summary.csv" ∧ '/' ∉ strL "failed_downloads.csv") :=
  ⟨by decide,
   report_files_written_at_destination_root (strL "d") quietEnv
     [⟨strL "A.pdf", false, none⟩] [] (by decide)⟩

/-- Claim C2: the two downloader variants differ exactly in the 401
policy.  Per link: on any non-200 response the main variant appends one
FailureRecord carrying the status code, while the copy appends the same
record unless the status is 401, in which case it appends nothing.  Per
run: the copy's failure list is the main variant's list with the 401
records filtered out, while filesystem effects, requests issued and files
written are identical. -/
theorem variants_differ_only_in_401_policy
    (folder : Str) (net : Str → GetResult) (i : Nat) (link : Str) (s : DlState) (r : Response)
    (links : List Str) (fs0 : List Str)
    (ha : attemptableB link = true) (hn : net link = GetResult.resp r) (hs : r.status ≠ 200) :
    ((dlStep folder net i link s).failures
        = s.failures ++ [mkFail link (some r.status) (strL "Status " ++ natToStr r.status)]
      ∧ (dlStepCopy folder net i link s).failures
        = s.failures ++ (if r.status = 401 then []
            else [mkFail link (some r.status) (strL "Status " ++ natToStr r.status)]))
    ∧ ((download_files_from_links_copy links folder net fs0).failures
        = (download_files_from_links links folder net fs0).failures.filter
            (fun fr => !decide (fr.status_code = some 401))
      ∧ (download_files_from_links_copy links folder net fs0).fs
        = (download_files_from_links links folder net fs0).fs
      ∧ (download_files_from_links_copy links folder net fs0).requested
        = (download_files_from_links links folder net fs0).requested
      ∧ (download_files_from_links_copy links folder net fs0).written
        = (download_files_from_links links folder net fs0).written) := by
  obtain ⟨g1, g2, g3, g4⟩ := download_copy_rel links folder net fs0
  refine ⟨⟨?_, ?_⟩, g4, g1, g2, g3⟩
  · rw [dlStep_eq_of_attempt folder net i link s ha, hn]
    dsimp only
    rw [if_neg hs]
  · rw [dlStepCopy_eq_of_attempt folder net i link s ha, hn]
    dsimp only
    rw [if_neg hs]
    by_cases h401 : r.status = 401
    · rw [if_pos h401, if_pos h401]
      simp
    · rw [if_neg h401, if_neg h401]

theorem variants_differ_only_in_401_policy_witness :
    (attemptableB (strL "http://a") = true
      ∧ respNet 401 (strL "http://a") = GetResult.resp ⟨401, none, [], strL "a.txt"⟩
      ∧ (401 : Nat) ≠ 200)
    ∧ (((dlStep (strL "d") (respNet 401) 0 (strL "http://a") ⟨[], [], [], []⟩).failures
        = [] ++ [mkFail (strL "http://a") (some 401) (strL "Status " ++ natToStr 401)]
      ∧ (dlStepCopy (strL "d") (respNet 401) 0 (strL "http://a") ⟨[], [], [], []⟩).failures
        = [] ++ (if (401 : Nat) = 401 then []
            else [mkFail (strL "http://a") (some 401) (strL "Status " ++ natToStr 401)]))
    ∧ ((download_files_from_links_copy [strL "http://a"] (strL "d") (respNet 401) []).failures
        = (download_files_from_links [strL "http://a"] (strL "d") (respNet 401) []).failures.filter
            (fun fr => !decide (fr.status_code = some 401))
      ∧ (download_files_from_links_copy [strL "http://a"] (strL "d") (respNet 401) []).fs
        = (download_files_from_links [strL "http://a"] (strL "d") (respNet 401) []).fs
      ∧ (download_files_from_links_copy [strL "http://a"] (strL "d") (respNet 401) []).requested
        = (download_files_from_links [strL "http://a"] (strL "d") (respNet 401) []).requested
      ∧ (download_files_from_links_copy [strL "http://a"] (strL "d") (respNet 401) []).written
        = (download_files_from_links [strL "http://a"] (strL "d") (respNet 401) []).written)) :=
  ⟨⟨by decide, by decide, by decide⟩,
   variants_differ_only_in_401_policy (strL "d") (respNet 401) 0 (strL "http://a")
     ⟨[], [], [], []⟩ ⟨401, none, [], strL "a.txt"⟩ [strL "http://a"] []
     (by decide) (by decide) (by decide)⟩

lemma process_summary_eq (dest : Str) (env : PEnv) (pdfs : List PdfFile) (fs0 : List Str)
    (h : pdfs ≠ []) :
    (process_pdf_folder dest env pdfs fs0).summary = summaryRows env 0 pdfs := by
  unfold process_pdf_folder
  rw [if_neg h]
  dsimp only
  split
  · rw [runDocs_summary]
    rfl
  · rw [runDocs_summary]
    rfl

lemma process_failed_eq (dest : Str) (env : PEnv) (pdfs : List PdfFile) (fs0 : List Str)
    (h : pdfs ≠ []) :
    (process_pdf_folder dest env pdfs fs0).all_failed
      = (runDocs dest env 0 pdfs ⟨addPath fs0 dest, [], [], []⟩).all_failed := by
  unfold process_pdf_folder
  rw [if_neg h]
  dsimp only
  split
  · rfl
  · rfl

/-- Claim C6: a PDF that is on disk but fails to parse gets a summary row
with count 0 at its ordinal position, contributes no FailureRecord (no
record carries its name, the names being distinct), and the run continues:
every later on-disk document still receives a summary row. -/
theorem unparseable_pdf_zero_summary_and_continue
    (dest : Str) (env : PEnv) (pre : List PdfFile) (bad : PdfFile) (post : List PdfFile)
    (fs0 : List Str)
    (h1 : bad.onDisk = true) (h2 : bad.parsed = none)
    (h3 : bad.name ∉ pre.map PdfFile.name) (h4 : bad.name ∉ post.map PdfFile.name) :
    (⟨pre.length + 1, bad.name, 0⟩ : SummaryRow)
        ∈ (process_pdf_folder dest env (pre ++ bad :: post) fs0).summary
    ∧ (∀ g ∈ (process_pdf_folder dest env (pre ++ bad :: post) fs0).all_failed,
        g.pdf_file ≠ bad.name)
    ∧ (∀ q ∈ post, q.onDisk = true →
        ∃ row, row ∈ (process_pdf_folder dest env (pre ++ bad :: post) fs0).summary
          ∧ row.file_name = q.name) := by
  have hne : pre ++ bad :: post ≠ [] := by cases pre <;> simp
  have hsum := process_summary_eq dest env (pre ++ bad :: post) fs0 hne
  refine ⟨?_, ?_, ?_⟩
  · rw [hsum, summaryRows_append]
    apply List.mem_append_right
    simp only [Nat.zero_add, summaryRows, docRow, h1, h2, if_true]
    exact List.mem_append_left _ (List.mem_singleton.mpr rfl)
  · intro g hg hcontra
    rw [process_failed_eq dest env _ fs0 hne] at hg
    rcases runDocs_failed dest env _ 0 _ g hg with hmem | ⟨p, hp, hname, d, hpd, _⟩
    · simp at hmem
    · rcases List.mem_append.mp hp with hpre | hpost
      · exact h3 (by rw [← hcontra, hname]; exact List.mem_map_of_mem PdfFile.name hpre)
      · rcases List.mem_cons.mp hpost with rfl | hpost'
        · rw [hpd] at h2
          cases h2
        · exact h4 (by rw [← hcontra, hname]; exact List.mem_map_of_mem PdfFile.name hpost')
  · intro q hq hdisk
    rw [hsum, summaryRows_append]
    obtain ⟨row, hrow, hname⟩ := summaryRows_mem env post (pre.length + 1) q hq hdisk
    refine ⟨row, ?_, hname⟩
    apply List.mem_append_right
    simp only [Nat.zero_add, summaryRows]
    exact List.mem_append_right _ hrow

theorem unparseable_pdf_zero_summary_and_continue_witness :
    ((⟨strL "B.pdf", true, none⟩ : PdfFile).onDisk = true
      ∧ (⟨strL "B.pdf", true, none⟩ : PdfFile).parsed = none
      ∧ (⟨strL "B.pdf", true, none⟩ : PdfFile).name ∉ ([] : List PdfFile).map PdfFile.name
      ∧ (⟨strL "B.pdf", true, none⟩ : PdfFile).name ∉ ([] : List PdfFile).map PdfFile.name)
    ∧ ((⟨0 + 1, (⟨strL "B.pdf", true, none⟩ : PdfFile).name, 0⟩ : SummaryRow)
        ∈ (process_pdf_folder (strL "d") quietEnv
            ([] ++ (⟨strL "B.pdf", true, none⟩ : PdfFile) :: []) []).summary
    ∧ (∀ g ∈ (process_pdf_folder (strL "d") quietEnv
            ([] ++ (⟨strL "B.pdf", true, none⟩ : PdfFile) :: []) []).all_failed,
        g.pdf_file ≠ (⟨strL "B.pdf", true, none⟩ : PdfFile).name)
    ∧ (∀ q ∈ ([] : List PdfFile), q.onDisk = true →
        ∃ row, row ∈ (process_pdf_folder (strL "d") quietEnv
            ([] ++ (⟨strL "B.pdf", true, none⟩ : PdfFile) :: []) []).summary
          ∧ row.file_name = q.name)) :=
  ⟨⟨by decide, by decide, by decide, by decide⟩,
   unparseable_pdf_zero_summary_and_continue (strL "d") quietEnv []
     ⟨strL "B.pdf", true, none⟩ [] [] (by decide) (by decide) (by decide) (by decide)⟩

/-- Claim C9: a document from which zero hyperlinks are extracted changes
nothing but the summary: the step leaves the filesystem (so no
per-document subfolder is created), the failure list and the written list
untouched and appends exactly one summary row with count 0; at run level
its row with count 0 is present and no FailureRecord carries its name. -/
theorem zero_links_no_folder_no_failures_zero_row
    (dest : Str) (env : PEnv) (pre : List PdfFile) (p : PdfFile) (post : List PdfFile)
    (fs0 : List Str) (d : PdfDoc)
    (h1 : p.onDisk = true) (h2 : p.parsed = some d)
    (h3 : extract_hyperlinks_from_pdf d = [])
    (h4 : p.name ∉ pre.map PdfFile.name) (h5 : p.name ∉ post.map PdfFile.name) :
    (∀ i s, processDoc dest env i p s = { s with summary := s.summary ++ [⟨i + 1, p.name, 0⟩] })
    ∧ (⟨pre.length + 1, p.name, 0⟩ : SummaryRow)
        ∈ (process_pdf_folder dest env (pre ++ p :: post) fs0).summary
    ∧ ∀ g ∈ (process_pdf_folder dest env (pre ++ p :: post) fs0).all_failed,
        g.pdf_file ≠ p.name := by
  have hne : pre ++ p :: post ≠ [] := by cases pre <;> simp
  refine ⟨?_, ?_, ?_⟩
  · intro i s
    unfold processDoc
    rw [h1, h2]
    dsimp only
    rw [if_neg (by simp), if_pos h3]
  · rw [process_summary_eq dest env _ fs0 hne, summaryRows_append]
    apply List.mem_append_right
    simp only [Nat.zero_add, summaryRows, docRow, h1, h2, if_true]
    have hcnt : docCnt env d = 0 := by simp [docCnt, h3]
    rw [hcnt]
    exact List.mem_append_left _ (List.mem_singleton.mpr rfl)
  · intro g hg hcontra
    rw [process_failed_eq dest env _ fs0 hne] at hg
    rcases runDocs_failed dest env _ 0 _ g hg with hmem | ⟨q, hq, hname, d', hpd, hd'⟩
    · simp at hmem
    · rcases List.mem_append.mp hq with hpre | hpost
      · exact h4 (by rw [← hcontra, hname]; exact List.mem_map_of_mem PdfFile.name hpre)
      · rcases List.mem_cons.mp hpost with rfl | hpost'
        · rw [h2] at hpd
          have : d = d' := by injection hpd
          exact hd' (this ▸ h3)
        · exact h5 (by rw [← hcontra, hname]; exact List.mem_map_of_mem PdfFile.name hpost')

theorem zero_links_no_folder_no_failures_zero_row_witness :
    ((⟨strL "E.pdf", true, some ⟨[]⟩⟩ : PdfFile).onDisk = true
      ∧ (⟨strL "E.pdf", true, some ⟨[]⟩⟩ : PdfFile).parsed = some ⟨[]⟩
      ∧ extract_hyperlinks_from_pdf ⟨[]⟩ = []
      ∧ (⟨strL "E.pdf", true, some ⟨[]⟩⟩ : PdfFile).name ∉ ([] : List PdfFile).map PdfFile.name
      ∧ (⟨strL "E.pdf", true, some ⟨[]⟩⟩ : PdfFile).name ∉ ([] : List PdfFile).map PdfFile.name)
    ∧ ((∀ i s, processDoc (strL "d") quietEnv i ⟨strL "E.pdf", true, some ⟨[]⟩⟩ s
          = { s with summary := s.summary
              ++ [⟨i + 1, (⟨strL "E.pdf", true, some ⟨[]⟩⟩ : PdfFile).name, 0⟩] })
    ∧ (⟨([] : List PdfFile).length + 1, (⟨strL "E.pdf", true, some ⟨[]⟩⟩ : PdfFile).name, 0⟩ : SummaryRow)
        ∈ (process_pdf_folder (strL "d") quietEnv
            ([] ++ (⟨strL "E.pdf", true, some ⟨[]⟩⟩ : PdfFile) :: []) []).summary
    ∧ ∀ g ∈ (process_pdf_folder (strL "d") quietEnv
            ([] ++ (⟨strL "E.pdf", true, some ⟨[]⟩⟩ : PdfFile) :: []) []).all_failed,
        g.pdf_file ≠ (⟨strL "E.pdf", true, some ⟨[]⟩⟩ : PdfFile).name) :=
  ⟨⟨by decide, by decide, by decide, by decide, by decide⟩,
   zero_links_no_folder_no_failures_zero_row (strL "d") quietEnv []
     ⟨strL "E.pdf", true, some ⟨[]⟩⟩ [] [] ⟨[]⟩
     (by decide) (by decide) (by decide) (by decide) (by decide)⟩

/-- Claim C8: for a working subfolder that exists and whose computed rename
target differs from it, a failing `os.rename` leaves the filesystem
untouched (the original folder stays in place) and tags every failure
record of the document with the original pre-rename subfolder path, while
a succeeding rename moves the subtree and tags every record with the final
post-rename path. -/
theorem rename_failure_keeps_original_path
    (dest : Str) (envF envS : PEnv) (i : Nat) (name sub : Str) (fs : List Str)
    (failed : List FailureRecord)
    (hsub : sub ∈ fs)
    (hne : sub ≠ renameTarget dest i name fs)
    (hF : envF.renameFails sub (renameTarget dest i name fs) = true)
    (hS : envS.renameFails sub (renameTarget dest i name fs) = false) :
    renameStep dest envF i name sub fs failed = (fs, failed.map (tagRec name sub))
    ∧ renameStep dest envS i name sub fs failed
        = (fs.map (renamePath sub (renameTarget dest i name fs)),
           failed.map (tagRec name (renameTarget dest i name fs)))
    ∧ ∀ g ∈ (renameStep dest envF i name sub fs failed).2,
        g.attachments_folder = sub ∧ g.pdf_file = name := by
  have hFeq : renameStep dest envF i name sub fs failed
      = (fs, failed.map (tagRec name sub)) := by
    simp only [renameStep]
    rw [if_pos hsub, if_pos hne, if_pos hF]
  have hSeq : renameStep dest envS i name sub fs failed
      = (fs.map (renamePath sub (renameTarget dest i name fs)),
         failed.map (tagRec name (renameTarget dest i name fs))) := by
    simp only [renameStep]
    rw [if_pos hsub, if_pos hne, if_neg (by simp [hS])]
  refine ⟨hFeq, hSeq, ?_⟩
  intro g hg
  rw [hFeq] at hg
  obtain ⟨f, _, rfl⟩ := List.mem_map.mp hg
  exact ⟨rfl, rfl⟩

theorem rename_failure_keeps_original_path_witness :
    ((strL "d/pdf_1") ∈ [strL "d", strL "d/pdf_1"]
      ∧ (strL "d/pdf_1")
          ≠ renameTarget (strL "d") 0 (strL "A.pdf") [strL "d", strL "d/pdf_1"]
      ∧ failRenameEnv.renameFails (strL "d/pdf_1")
          (renameTarget (strL "d") 0 (strL "A.pdf") [strL "d", strL "d/pdf_1"]) = true
      ∧ quietEnv.renameFails (strL "d/pdf_1")
          (renameTarget (strL "d") 0 (strL "A.pdf") [strL "d", strL "d/pdf_1"]) = false)
    ∧ (renameStep (strL "d") failRenameEnv 0 (strL "A.pdf") (strL "d/pdf_1")
          [strL "d", strL "d/pdf_1"] [mkFail (strL "http://x") (some 404) (strL "Status 404")]
        = ([strL "d", strL "d/pdf_1"],
           [mkFail (strL "http://x") (some 404) (strL "Status 404")].map
             (tagRec (strL "A.pdf") (strL "d/pdf_1")))
    ∧ renameStep (strL "d") quietEnv 0 (strL "A.pdf") (strL "d/pdf_1")
          [strL "d", strL "d/pdf_1"] [mkFail (strL "http://x") (some 404) (strL "Status 404")]
        = ([strL "d", strL "d/pdf_1"].map
             (renamePath (strL "d/pdf_1")
               (renameTarget (strL "d") 0 (strL "A.pdf") [strL "d", strL "d/pdf_1"])),
           [mkFail (strL "http://x") (some 404) (strL "Status 404")].map
             (tagRec (strL "A.pdf")
               (renameTarget (strL "d") 0 (strL "A.pdf") [strL "d", strL "d/pdf_1"])))
    ∧ ∀ g ∈ (renameStep (strL "d") failRenameEnv 0 (strL "A.pdf") (strL "d/pdf_1")
          [strL "d", strL "d/pdf_1"]
          [mkFail (strL "http://x") (some 404) (strL "Status 404")]).2,
        g.attachments_folder = strL "d/pdf_1" ∧ g.pdf_file = strL "A.pdf") :=
  ⟨⟨by decide, by decide, by decide, by decide⟩,
   rename_failure_keeps_original_path (strL "d") failRenameEnv quietEnv 0
     (strL "A.pdf") (strL "d/pdf_1") [strL "d", strL "d/pdf_1"]
     [mkFail (strL "http://x") (some 404) (strL "Status 404")]
     (by decide) (by decide) (by decide) (by decide)⟩

/-- Claim C10, counterexample: for input `ab.c#` the extension split off
the raw input is `.c#` (length 3 ≤ 150), but the character `#` is removed
by sanitization, so the returned string `ab.c` does not end with that
extension. -/
theorem sanitize_filename_input_extension_not_preserved :
    (splitext (strL "ab.c#")).2.length ≤ 150
    ∧ strEnds (splitext (strL "ab.c#")).2 (sanitize_filename (strL "ab.c#") 150) = false := by
  decide

/-- Claim C10, amended: for every input string such that the extension
split off the *sanitized* (character-filtered) form of the input has
length at most max_length, sanitize_filename returns a string of length at
most max_length that ends with that extension and contains only characters
from `valid_chars` (ASCII letters, digits, and `-_.() `). -/
theorem sanitize_filename_bounded_with_sanitized_extension (s : Str) (m : Nat)
    (h : (splitext (s.filter fun c => decide (c ∈ valid_chars))).2.length ≤ m) :
    (sanitize_filename s m).length ≤ m
    ∧ strEnds (splitext (s.filter fun c => decide (c ∈ valid_chars))).2
        (sanitize_filename s m) = true
    ∧ ∀ c ∈ sanitize_filename s m, c ∈ valid_chars := by
  have hdef : sanitize_filename s m
      = (if (s.filter fun c => decide (c ∈ valid_chars)).length > m
         then pyTake (splitext (s.filter fun c => decide (c ∈ valid_chars))).1
              ((m : Int) - (splitext (s.filter fun c => decide (c ∈ valid_chars))).2.length)
           ++ (splitext (s.filter fun c => decide (c ∈ valid_chars))).2
         else s.filter fun c => decide (c ∈ valid_chars)) := rfl
  set f := s.filter fun c => decide (c ∈ valid_chars) with hfdef
  set nm := (splitext f).1 with hnm
  set ext := (splitext f).2 with hext
  have hvalid : ∀ c ∈ f, c ∈ valid_chars := by
    intro c hc
    rw [hfdef] at hc
    exact of_decide_eq_true (List.mem_filter.mp hc).2
  have hrec : nm ++ ext = f := splitext_append f
  rw [hdef]
  by_cases hlen : f.length > m
  · rw [if_pos hlen]
    have hcast : (ext.length : Int) ≤ (m : Int) := by exact_mod_cast h
    have hk : (0 : Int) ≤ (m : Int) - ext.length := by omega
    have hpy : pyTake nm ((m : Int) - ext.length) = nm.take ((m : Int) - ext.length).toNat := by
      unfold pyTake
      rw [if_pos hk]
    have htn : ((m : Int) - (ext.length : Int)).toNat = m - ext.length := by omega
    refine ⟨?_, strEnds_append _ ext, ?_⟩
    · rw [hpy, htn, List.length_append]
      have h1 : (nm.take (m - ext.length)).length ≤ m - ext.length := by
        rw [List.length_take]
        omega
      omega
    · intro c hc
      rw [hpy, htn] at hc
      rcases List.mem_append.mp hc with hc' | hc'
      · exact hvalid c (by rw [← hrec]; exact List.mem_append_left _ (List.mem_of_mem_take hc'))
      · exact hvalid c (by rw [← hrec]; exact List.mem_append_right _ hc')
  · rw [if_neg hlen]
    refine ⟨by omega, ?_, hvalid⟩
    rw [← hrec]
    exact strEnds_append nm ext

theorem sanitize_filename_bounded_with_sanitized_extension_witness :
    ((splitext ((strL "a#b.txt").filter fun c => decide (c ∈ valid_chars))).2.length ≤ 150)
    ∧ ((sanitize_filename (strL "a#b.txt") 150).length ≤ 150
      ∧ strEnds (splitext ((strL "a#b.txt").filter fun c => decide (c ∈ valid_chars))).2
          (sanitize_filename (strL "a#b.txt") 150) = true
      ∧ ∀ c ∈ sanitize_filename (strL "a#b.txt") 150, c ∈ valid_chars) :=
  ⟨by decide,
   sanitize_filename_bounded_with_sanitized_extension (strL "a#b.txt") 150 (by decide)⟩

/-- Claim C3: when two successful downloads into the same folder resolve to
the same sanitized filename, the first write picks the first free name for
the joined path and the second write — the path now being taken — picks the
first free `_1`, `_2`, … suffixed candidate (suffix inserted before the
extension); the second path is fresh and distinct from the first, both
written files exist afterwards, and every pre-existing path still exists
(nothing is overwritten). -/
theorem colliding_downloads_get_numeric_suffix
    (folder : Str) (net : Str → GetResult) (fs0 : List Str) (l1 l2 : Str) (r1 r2 : Response)
    (h1 : attemptableB l1 = true) (h2 : attemptableB l2 = true)
    (hn1 : net l1 = GetResult.resp r1) (hn2 : net l2 = GetResult.resp r2)
    (hs1 : r1.status = 200) (hs2 : r2.status = 200)
    (hname : dlSanitize (dlFilename 1 r2) = dlSanitize (dlFilename 0 r1)) :
    ∃ w1 w2,
      (download_files_from_links [l1, l2] folder net fs0).written = [w1, w2]
      ∧ freshChoice (addPath fs0 folder)
          (pathJoin folder (dlSanitize (dlFilename 0 r1))) w1
      ∧ freshChoice (addPath fs0 folder ++ [w1])
          (pathJoin folder (dlSanitize (dlFilename 0 r1))) w2
      ∧ w1 ∈ (download_files_from_links [l1, l2] folder net fs0).fs
      ∧ w2 ∈ (download_files_from_links [l1, l2] folder net fs0).fs
      ∧ w2 ≠ w1
      ∧ ∀ q ∈ fs0, q ∈ (download_files_from_links [l1, l2] folder net fs0).fs := by
  set fs1 := addPath fs0 folder with hfs1
  set p := pathJoin folder (dlSanitize (dlFilename 0 r1)) with hp
  set w1 := dlTarget folder 0 r1 fs1 with hw1def
  have hw1 : freshChoice fs1 p w1 := dl_freshChoice fs1 p
  have hw1notin : w1 ∉ fs1 := hw1.1
  have hfs2 : addPath fs1 w1 = fs1 ++ [w1] := addPath_of_not_mem _ _ hw1notin
  set w2 := dlTarget folder 1 r2 (fs1 ++ [w1]) with hw2def
  have hw2eq : w2 = suffixLoop (fs1 ++ [w1]) (fileCand (splitext p).1 (splitext p).2) p 1
      ((fs1 ++ [w1]).length + 1) := by
    rw [hw2def]
    simp only [dlTarget]
    rw [hname]
  have hw2 : freshChoice (fs1 ++ [w1]) p w2 := by
    rw [hw2eq]
    exact dl_freshChoice (fs1 ++ [w1]) p
  have hw2notin : w2 ∉ fs1 ++ [w1] := hw2.1
  have hfs3 : addPath (fs1 ++ [w1]) w2 = (fs1 ++ [w1]) ++ [w2] := addPath_of_not_mem _ _ hw2notin
  have e1 : dlStep folder net 0 l1 ⟨fs1, [], [], []⟩
      = ⟨addPath fs1 w1, [], [] ++ [l1], [] ++ [w1]⟩ := by
    rw [dlStep_eq_of_attempt folder net 0 l1 _ h1, hn1]
    dsimp only
    rw [if_pos hs1]
  have e2 : dlStep folder net 1 l2 ⟨fs1 ++ [w1], [], [] ++ [l1], [] ++ [w1]⟩
      = ⟨addPath (fs1 ++ [w1]) w2, [], ([] ++ [l1]) ++ [l2], ([] ++ [w1]) ++ [w2]⟩ := by
    rw [dlStep_eq_of_attempt folder net 1 l2 _ h2, hn2]
    dsimp only
    rw [if_pos hs2]
  have hRfull : download_files_from_links [l1, l2] folder net fs0
      = ⟨(fs1 ++ [w1]) ++ [w2], [], ([] ++ [l1]) ++ [l2], ([] ++ [w1]) ++ [w2]⟩ := by
    show dlStep folder net 1 l2 (dlStep folder net 0 l1 ⟨fs1, [], [], []⟩) = _
    rw [e1, hfs2, e2, hfs3]
  rw [hRfull]
  refine ⟨w1, w2, by simp, hw1, hw2, ?_, ?_, ?_, ?_⟩
  · simp
  · simp
  · intro heq
    exact hw2notin (heq ▸ List.mem_append_right fs1 (List.mem_singleton.mpr rfl))
  · intro q hq
    have : q ∈ fs1 := addPath_mono fs0 folder q hq
    simp [this]

theorem colliding_downloads_get_numeric_suffix_witness :
    (attemptableB (strL "http://a") = true
      ∧ attemptableB (strL "http://b") = true
      ∧ respNet 200 (strL "http://a") = GetResult.resp ⟨200, none, [], strL "a.txt"⟩
      ∧ respNet 200 (strL "http://b") = GetResult.resp ⟨200, none, [], strL "a.txt"⟩
      ∧ (⟨200, none, [], strL "a.txt"⟩ : Response).status = 200
      ∧ dlSanitize (dlFilename 1 ⟨200, none, [], strL "a.txt"⟩)
          = dlSanitize (dlFilename 0 ⟨200, none, [], strL "a.txt"⟩))
    ∧ (∃ w1 w2,
      (download_files_from_links [strL "http://a", strL "http://b"] (strL "d")
          (respNet 200) []).written = [w1, w2]
      ∧ freshChoice (addPath [] (strL "d"))
          (pathJoin (strL "d") (dlSanitize (dlFilename 0 ⟨200, none, [], strL "a.txt"⟩))) w1
      ∧ freshChoice (addPath [] (strL "d") ++ [w1])
          (pathJoin (strL "d") (dlSanitize (dlFilename 0 ⟨200, none, [], strL "a.txt"⟩))) w2
      ∧ w1 ∈ (download_files_from_links [strL "http://a", strL "http://b"] (strL "d")
          (respNet 200) []).fs
      ∧ w2 ∈ (download_files_from_links [strL "http://a", strL "http://b"] (strL "d")
          (respNet 200) []).fs
      ∧ w2 ≠ w1
      ∧ ∀ q ∈ ([] : List Str),
          q ∈ (download_files_from_links [strL "http://a", strL "http://b"] (strL "d")
            (respNet 200) []).fs) :=
  ⟨⟨by decide, by decide, by decide, by decide, by decide, by decide⟩,
   colliding_downloads_get_numeric_suffix (strL "d") (respNet 200) []
     (strL "http://a") (strL "http://b")
     ⟨200, none, [], strL "a.txt"⟩ ⟨200, none, [], strL "a.txt"⟩
     (by decide) (by decide) (by decide) (by decide) (by decide) (by decide) (by decide)⟩
